import Mathlib

/-!
Verification of the document-assembly core of `build.py` (the
`md-manuscript` repository): the transclusion resolver
(`resolve_transclusions`), the citation extractor
(`extract_si_citations`), the garden pre-scan of
`build_digital_garden`, the merge phase of `build_document`, and the
output-directory handling of the garden build.

Texts are modelled as `List Char`.  Fallible/partial code is modelled
with an explicit fuel argument (the Python resolver recurses without a
cycle guard, so it is a genuinely partial function; fuel only limits
the recursion depth and every theorem below either holds for all fuel
values or is stated at an explicitly sufficient fuel).  The read-only
filesystem view is an association list from path strings to file
contents.
-/

namespace MdManuscript

/-- Python `str.strip` whitespace set: space, tab, newline, carriage
return, vertical tab, form feed. -/
def isPyWs (c : Char) : Bool :=
  c = ' ' || c = '\t' || c = '\n' || c = '\r' || c = '\x0b' || c = '\x0c'

/-- Python `str.strip()`: drop leading and trailing whitespace. -/
def pystrip (l : List Char) : List Char :=
  ((l.dropWhile isPyWs).reverse.dropWhile isPyWs).reverse

/-- Read-only filesystem view: association list path ↦ content. -/
def FS : Type := List (List Char × List Char)

/-- Look a path up in the filesystem view. -/
def fsRead (fs : FS) (p : List Char) : Option (List Char) :=
  (List.find? (fun e => e.1 == p) fs).map (fun e => e.2)

/-- `pathlib.Path.suffix` is nonempty iff the final path component has
a dot at an index `i` with `0 < i < len - 1`.  For a name `c :: rest`
this is: a dot occurs in `rest` before its final character. -/
def hasSuffixPath (p : List Char) : Bool :=
  match (p.reverse.takeWhile (fun c => c ≠ '/')).reverse with
  | [] => false
  | _ :: rest => rest.dropLast.contains '.'

/-- `base_dir / filename` for our string paths. -/
def pathJoin (base fn : List Char) : List Char :=
  base ++ '/' :: fn

/-- The target-lookup step of `_replace_transclusion`: try
`base_dir / filename`; if absent and the path has no suffix, retry
with `.md` appended (`Path.with_suffix(".md")` on a suffix-free path
appends). -/
def lookupTarget (fs : FS) (base fn : List Char) : Option (List Char) :=
  let p := pathJoin base fn
  match fsRead fs p with
  | some c => some c
  | none => if hasSuffixPath p then none else fsRead fs (p ++ ".md".toList)

/-- From the directive's inner text to the target filename:
`match.group(1).strip()`, then the part before the first `|` when an
alias is present (`split("|", 1)[0]`). -/
def targetName (inner : List Char) : List Char :=
  (pystrip inner).takeWhile (fun c => c ≠ '|')

/-- Find the first `---` occurrence and return the remainder after it;
`none` when there is no occurrence.  This is the second-delimiter
search of `content.split("---", 2)` (whose first occurrence is at
position 0 because the caller checked `startswith("---")`). -/
def afterDelim : List Char → Option (List Char)
  | '-' :: '-' :: '-' :: rest => some rest
  | _ :: rest => afterDelim rest
  | [] => none

/-- Frontmatter stripping of `_replace_transclusion`: when the content
starts with `---` and a second `---` exists, keep only the text after
the second `---`; a `ValueError` from the unpacking (fewer than two
occurrences) keeps the content unchanged. -/
def stripFM (c : List Char) : List Char :=
  if "---".toList.isPrefixOf c then
    match afterDelim (c.drop 3) with
    | some rest => rest
    | none => c
  else c

/-- Close search for the lazy regex `!\[\[(.*?)\]\]` once `![[` has
been consumed: scan for the first `]]`; `.` does not match a newline,
so a newline before any `]]` means no match at this start position. -/
def findClose : List Char → Option (List Char × List Char)
  | ']' :: ']' :: rest => some ([], rest)
  | '\n' :: _ => none
  | c :: rest =>
    match findClose rest with
    | some (inner, after) => some (c :: inner, after)
    | none => none
  | [] => none

/-- The re.sub scan of `resolve_transclusions`, fuel-indexed.  A match
`![[inner]]` is replaced: if the target (after the `.md` retry) is
missing, a warning naming the target is recorded and the directive is
kept verbatim; otherwise the target's content, with a leading
metadata block stripped, is recursively resolved and substituted.
The scan then continues after the match; replacements are never
rescanned (re.sub semantics).  Fuel `0` stops the scan with the
remaining text unchanged; it only matters for cyclic inclusion, which
diverges in the source. -/
def rtAux (fs : FS) (base : List Char) : Nat → List Char → List Char × List (List Char)
  | 0, content => (content, [])
  | _ + 1, [] => ([], [])
  | fuel + 1, '!' :: '[' :: '[' :: rest =>
    match findClose rest with
    | some (inner, after) =>
      let fn := targetName inner
      match lookupTarget fs base fn with
      | some c =>
        let (r, w1) := rtAux fs base fuel (stripFM c)
        let (t, w2) := rtAux fs base fuel after
        (r ++ t, w1 ++ w2)
      | none =>
        let (t, w) := rtAux fs base fuel after
        ('!' :: '[' :: '[' :: (inner ++ ']' :: ']' :: t), fn :: w)
    | none =>
      let (t, w) := rtAux fs base fuel ('[' :: '[' :: rest)
      ('!' :: t, w)
  | fuel + 1, c :: rest =>
    let (t, w) := rtAux fs base fuel rest
    (c :: t, w)

/-- `resolve_transclusions(content, base_dir)`; the second component
is the list of "Transcluded file not found" warnings, each naming the
missing target. -/
def resolve_transclusions (fuel : Nat) (fs : FS) (base content : List Char) :
    List Char × List (List Char) :=
  rtAux fs base fuel content

/-- The targets of the directives the top-level re.sub scan matches,
in match order (same scan shape as `rtAux`). -/
def directiveTargets : Nat → List Char → List (List Char)
  | 0, _ => []
  | _ + 1, [] => []
  | fuel + 1, '!' :: '[' :: '[' :: rest =>
    match findClose rest with
    | some (inner, after) => targetName inner :: directiveTargets fuel after
    | none => directiveTargets fuel ('[' :: '[' :: rest)
  | fuel + 1, _ :: rest => directiveTargets fuel rest

/-- Whether a directive match starts right after a `!` at this
position: the text must continue with `[[` and a `]]` must close it
before any newline. -/
def startsDirective : List Char → Bool
  | '[' :: '[' :: rest2 => (findClose rest2).isSome
  | _ => false

/-- Whether the text contains any substring matching the directive
pattern `!\[\[(.*?)\]\]`. -/
def hasDirective : List Char → Bool
  | [] => false
  | c :: rest => (c == '!' && startsDirective rest) || hasDirective rest

example : hasDirective "See ![[ghost]] here.".toList = true := by decide
example : hasDirective "no directives ![ [x]] here".toList = false := by decide

example :
    resolve_transclusions 40 [] "d".toList "See ![[ghost]] here.".toList =
      ("See ![[ghost]] here.".toList, ["ghost".toList]) := by decide

example :
    (resolve_transclusions 40 [("d/t.md".toList, "---\ntitle: X\n---\nBody".toList)]
      "d".toList "A![[t]]B".toList).1 = "A\nBodyB".toList := by decide

/-! Lemmas about the resolver scan. -/

lemma findClose_decomp : ∀ {l inner after : List Char},
    findClose l = some (inner, after) → l = inner ++ ']' :: ']' :: after := by
  intro l
  induction l using MdManuscript.findClose.induct with
  | case1 rest => intro inner after h; simp [findClose] at h; simp [h.1.symm, h.2.symm]
  | case2 tail => intro inner after h; simp [findClose] at h
  | case3 c rest h1 h2 inner0 after0 hfc ih =>
    intro inner after h
    simp [findClose, hfc] at h
    obtain ⟨h3, h4⟩ := h
    subst h3 h4
    simpa using ih hfc
  | case4 c rest h1 h2 hfc ih => intro inner after h; simp [findClose, hfc] at h
  | case5 => intro inner after h; simp [findClose] at h

lemma rtAux_nil (fs : FS) (base : List Char) (fuel : Nat) :
    rtAux fs base fuel [] = ([], []) := by cases fuel <;> rfl

lemma rtAux_cons_generic (fs : FS) (base : List Char) (fuel : Nat) (c : Char)
    (rest : List Char)
    (hno : ∀ (rest2 : List Char), c = '!' → rest = '[' :: '[' :: rest2 → False) :
    rtAux fs base (fuel + 1) (c :: rest) =
      (c :: (rtAux fs base fuel rest).1, (rtAux fs base fuel rest).2) := by
  rw [rtAux.eq_def]
  split <;> simp_all

lemma directiveTargets_cons_generic (fuel : Nat) (c : Char) (rest : List Char)
    (hno : ∀ (rest2 : List Char), c = '!' → rest = '[' :: '[' :: rest2 → False) :
    directiveTargets (fuel + 1) (c :: rest) = directiveTargets fuel rest := by
  rw [directiveTargets.eq_def]
  split <;> simp_all

lemma startsDirective_false {rest : List Char}
    (hno : ∀ (rest2 : List Char), rest = '[' :: '[' :: rest2 → False) :
    startsDirective rest = false := by
  rw [startsDirective.eq_def]
  split <;> simp_all

lemma rtAux_noDirective (fs : FS) (base : List Char) :
    ∀ (fuel : Nat) (content : List Char), hasDirective content = false →
      rtAux fs base fuel content = (content, []) := by
  intro fuel content
  induction fuel, content using MdManuscript.rtAux.induct fs base with
  | case1 content => intro _; rfl
  | case2 n => intro _; rfl
  | case3 fuel rest inner after hfc fn c hc t w2 ht t' w2' ht' ih1 ih2 =>
    intro h; simp [hasDirective, startsDirective, hfc] at h
  | case4 fuel rest inner after hfc fn hc t w2 ht ih =>
    intro h; simp [hasDirective, startsDirective, hfc] at h
  | case5 fuel rest hfc t w2 ht ih =>
    intro h
    simp [hasDirective, startsDirective, hfc] at h
    simp [rtAux, hfc, ih h]
  | case6 fuel c rest hno t w2 ht ih =>
    intro h
    simp [hasDirective] at h
    rw [rtAux_cons_generic fs base fuel c rest hno, ih h.2]

lemma rtAux_allMissing (fs : FS) (base : List Char) :
    ∀ (fuel : Nat) (content : List Char),
      (∀ t ∈ directiveTargets fuel content, lookupTarget fs base t = none) →
      rtAux fs base fuel content = (content, directiveTargets fuel content) := by
  intro fuel content
  induction fuel, content using MdManuscript.rtAux.induct fs base with
  | case1 content => intro _; rfl
  | case2 n => intro _; rfl
  | case3 fuel rest inner after hfc fn c hc t w2 ht t' w2' ht' ih1 ih2 =>
    intro h
    exfalso
    have hmem := h (targetName inner) (by simp [directiveTargets, hfc])
    simp only [hmem] at hc
    exact Option.noConfusion hc
  | case4 fuel rest inner after hfc fn hc t w2 ht ih =>
    intro h
    have htail : ∀ t ∈ directiveTargets fuel after, lookupTarget fs base t = none := by
      intro t hm
      exact h t (by simp [directiveTargets, hfc, hm])
    have hrest : rest = inner ++ ']' :: ']' :: after := findClose_decomp hfc
    simp only [rtAux, hfc, hc, ih htail, directiveTargets]
    simp [hrest]
  | case5 fuel rest hfc t w2 ht ih =>
    intro h
    have h2 : ∀ t ∈ directiveTargets fuel ('[' :: '[' :: rest), lookupTarget fs base t = none := by
      intro t hm
      exact h t (by simp [directiveTargets, hfc, hm])
    simp [rtAux, hfc, ih h2, directiveTargets]
  | case6 fuel c rest hno t w2 ht ih =>
    intro h
    rw [directiveTargets_cons_generic fuel c rest hno] at h ⊢
    rw [rtAux_cons_generic fs base fuel c rest hno, ih h]

/-! Claims C4, C5, C7 about the Inclusion Resolver. -/

/-- C7: for every text containing no substring matching the directive
bracket syntax, `resolve_transclusions` returns the text unchanged
(and records no warning), for any base directory, any filesystem view
and any recursion budget; resolution is idempotent on fully resolved
texts. -/
theorem c7_resolution_idempotent (fuel : Nat) (fs : FS) (base content : List Char)
    (h : hasDirective content = false) :
    resolve_transclusions fuel fs base content = (content, []) :=
  rtAux_noDirective fs base fuel content h

/-- Witness for C7 at a concrete directive-free text. -/
theorem c7_resolution_idempotent_witness :
    hasDirective "plain text, fully resolved.".toList = false ∧
      resolve_transclusions 40 [] "d".toList "plain text, fully resolved.".toList =
        ("plain text, fully resolved.".toList, []) :=
  ⟨by decide, c7_resolution_idempotent 40 [] "d".toList _ (by decide)⟩

/-- C4: whenever every inclusion directive of the text names a target
whose resolved path (after the `.md` retry for extension-less names)
is absent from the filesystem view, the resolver returns the input
text unchanged — each directive left verbatim — and records one
warning per missing directive; no exception is possible since the
function is total. -/
theorem c4_missing_target_resilience (fuel : Nat) (fs : FS) (base content : List Char)
    (h : ∀ t ∈ directiveTargets fuel content, lookupTarget fs base t = none) :
    resolve_transclusions fuel fs base content = (content, directiveTargets fuel content) :=
  rtAux_allMissing fs base fuel content h

/-- Witness for C4: `resolve("See ![[ghost]] here.", dir)` with
`dir/ghost.md` absent returns the input unchanged plus one recorded
warning naming `ghost`. -/
theorem c4_missing_target_resilience_witness :
    (∀ t ∈ directiveTargets 40 "See ![[ghost]] here.".toList,
        lookupTarget [] "d".toList t = none) ∧
      resolve_transclusions 40 [] "d".toList "See ![[ghost]] here.".toList =
        ("See ![[ghost]] here.".toList, ["ghost".toList]) :=
  ⟨by decide,
    (c4_missing_target_resilience 40 [] "d".toList "See ![[ghost]] here.".toList
      (by decide)).trans (by decide)⟩

/-- Filesystem view for the metadata-stripping scenario: one file
`d/t.md` whose content is a metadata block `---\ntitle: X\n---`
followed by an arbitrary remainder. -/
def c5fs (rest : List Char) : FS :=
  [("d/t.md".toList, "---\ntitle: X\n---".toList ++ rest)]

/-- C5 counterexample: the transcluded file `---\ntitle: X\n---\nBody`
is substituted as `\nBody` — the remainder after the metadata block,
with its leading newline kept — not as the trimmed `Body` the claim
states, so the parent `A![[t]]B` resolves to `A\nBodyB`, not
`ABodyB`. -/
theorem c5_metadata_stripping_cex :
    (resolve_transclusions 40 (c5fs "\nBody".toList) "d".toList "A![[t]]B".toList).1 =
        "A\nBodyB".toList ∧
      (resolve_transclusions 40 (c5fs "\nBody".toList) "d".toList "A![[t]]B".toList).1 ≠
        "ABodyB".toList := by
  constructor
  · decide
  · decide

/-- C5 amended: resolving a parent containing a directive whose target
starts with the metadata block `---\ntitle: X\n---` substitutes the
directive with exactly the (recursively resolved) remainder after the
first two `---` delimiters, verbatim — whitespace, such as the leading
newline of `\nBody`, is preserved, not trimmed. -/
theorem c5_metadata_stripping_amended (rest : List Char) (fuel : Nat)
    (h : hasDirective rest = false) :
    resolve_transclusions (fuel + 3) (c5fs rest) "d".toList "A![[t]]B".toList =
      ("A".toList ++ rest ++ "B".toList, []) := by
  have hb := rtAux_noDirective (c5fs rest) "d".toList (fuel + 1) rest h
  have key : rtAux (c5fs rest) "d".toList (fuel + 3) "A![[t]]B".toList =
      ('A' :: ((rtAux (c5fs rest) "d".toList (fuel + 1) rest).1 ++
        'B' :: (rtAux (c5fs rest) "d".toList fuel []).1),
       (rtAux (c5fs rest) "d".toList (fuel + 1) rest).2 ++
        (rtAux (c5fs rest) "d".toList fuel []).2) := rfl
  rw [resolve_transclusions, key, hb, rtAux_nil]
  simp

/-- Witness for the amended C5 at `rest = "\nBody"`. -/
theorem c5_metadata_stripping_amended_witness :
    hasDirective "\nBody".toList = false ∧
      resolve_transclusions 3 (c5fs "\nBody".toList) "d".toList "A![[t]]B".toList =
        ("A".toList ++ "\nBody".toList ++ "B".toList, []) :=
  ⟨by decide, c5_metadata_stripping_amended "\nBody".toList 0 (by decide)⟩

/-! The Citation Extractor `extract_si_citations`: tokens matching
`@[a-zA-Z][a-zA-Z0-9_:-]*` are collected, deduplicated (Python `set`),
filtered against the exclusion prefixes, sorted and joined. -/

/-- The character class `[a-zA-Z0-9_:-]` of the citation regex. -/
def isCiteChar (c : Char) : Bool :=
  c.isAlpha || c.isDigit || c = '_' || c = ':' || c = '-'

/-- Maximal-munch run of citation characters. -/
def citeRun : List Char → List Char
  | [] => []
  | c :: rest => if isCiteChar c then c :: citeRun rest else []

/-- All matches of `@[a-zA-Z][a-zA-Z0-9_:-]*`, in text order.  The
scan may test every position because a match's tail never contains an
`@`, so the non-overlapping left-to-right `re.findall` scan finds a
match at a position iff this scan does. -/
def findCitations : List Char → List (List Char)
  | [] => []
  | '@' :: rest =>
    (match rest with
     | c :: rest2 => if c.isAlpha then ['@' :: c :: citeRun rest2] else []
     | [] => []) ++ findCitations rest
  | _ :: rest => findCitations rest

/-- Python `str.rstrip(":")`. -/
def pyRstripColon (l : List Char) : List Char :=
  (l.reverse.dropWhile (fun c => c = ':')).reverse

/-- The exclusion set `{"@Fig:", "@Tbl:", "@email"}` of the source. -/
def excludedSigils : List (List Char) :=
  ["@Fig:".toList, "@Tbl:".toList, "@email".toList]

/-- `not any(c.startswith(e.rstrip(":")) for e in excluded)`. -/
def keepCitation (c : List Char) : Bool :=
  !(excludedSigils.any (fun e => (pyRstripColon e).isPrefixOf c))

/-- The deduplicated, filtered, lexicographically sorted citation-key
list (`sorted(filtered)` under Python's code-point string order). -/
def keptCitations (content : List Char) : List (List Char) :=
  List.insertionSort (fun a b : List Char => a ≤ b)
    (((findCitations content).dedup).filter keepCitation)

/-- `extract_si_citations`: semicolon-joined sorted filtered keys. -/
def extract_si_citations (content : List Char) : List Char :=
  List.intercalate "; ".toList (keptCitations content)

example :
    extract_si_citations "see @doe2020 and @Fig:1; mail @email, also @smith2021".toList =
      "@doe2020; @smith2021".toList := by decide

/-- C6: on any text whose citation-token set is exactly
`{@doe2020, @Fig:1, @email, @smith2021}`, the extractor returns
exactly `"@doe2020; @smith2021"`: deduplication is by exact key text,
the `@Fig:`/`@email` keys are excluded, and the output is the
semicolon-joined lexicographically sorted remainder. -/
theorem c6_citation_round_trip (content : List Char)
    (h : (findCitations content).dedup.Perm
      ["@doe2020".toList, "@Fig:1".toList, "@email".toList, "@smith2021".toList]) :
    extract_si_citations content = "@doe2020; @smith2021".toList := by
  have hf : ((findCitations content).dedup.filter keepCitation).Perm
      ["@doe2020".toList, "@smith2021".toList] := by
    have h2 := h.filter keepCitation
    have e : List.filter keepCitation
        ["@doe2020".toList, "@Fig:1".toList, "@email".toList, "@smith2021".toList] =
        ["@doe2020".toList, "@smith2021".toList] := by decide
    rwa [e] at h2
  have p : (keptCitations content).Perm
      (List.insertionSort (fun a b : List Char => a ≤ b)
        ["@doe2020".toList, "@smith2021".toList]) :=
    ((List.perm_insertionSort _ _).trans hf).trans (List.perm_insertionSort _ _).symm
  have e2 : keptCitations content =
      List.insertionSort (fun a b : List Char => a ≤ b)
        ["@doe2020".toList, "@smith2021".toList] :=
    List.eq_of_perm_of_sorted p (List.sorted_insertionSort _ _)
      (List.sorted_insertionSort _ _)
  rw [extract_si_citations, e2]
  decide

/-- Witness for C6 on a text carrying the four tokens out of order
with a duplicate. -/
theorem c6_citation_round_trip_witness :
    extract_si_citations
      "x @smith2021 and @doe2020, @Fig:1 @email @doe2020 end".toList =
      "@doe2020; @smith2021".toList :=
  c6_citation_round_trip _ (by decide)

/-- C10: the exclusion test uses the prefixes `@Fig`, `@Tbl` and
`@email` (the colon of the cross-reference sigil is stripped before
the `startswith` test), so every citation key merely beginning with
one of these character sequences is dropped from the result; in
particular ordinary bibliography keys `@Figueroa2020`, `@Tbline2019`
and `@emailXu2021` are silently dropped. -/
theorem c10_prefix_exclusion :
    (∀ (content k : List Char),
      ("@Fig".toList.isPrefixOf k || "@Tbl".toList.isPrefixOf k ||
        "@email".toList.isPrefixOf k) = true →
      k ∉ keptCitations content) ∧
    extract_si_citations
      "cites @Figueroa2020 @Tbline2019 @emailXu2021 @doe2020".toList =
      "@doe2020".toList := by
  constructor
  · intro content k hpre hmem
    rw [keptCitations, List.mem_insertionSort] at hmem
    have hkeep : keepCitation k = true := (List.mem_filter.mp hmem).2
    simp only [keepCitation, excludedSigils, List.any_cons, List.any_nil,
      Bool.not_eq_true', Bool.or_eq_false_iff] at hkeep
    have e1 : pyRstripColon "@Fig:".toList = "@Fig".toList := by decide
    have e2 : pyRstripColon "@Tbl:".toList = "@Tbl".toList := by decide
    have e3 : pyRstripColon "@email".toList = "@email".toList := by decide
    rw [e1] at hkeep
    rw [e2] at hkeep
    rw [e3] at hkeep
    simp only [Bool.or_eq_true] at hpre
    rcases hpre with (h1 | h2) | h3
    · rw [hkeep.1] at h1; exact Bool.noConfusion h1
    · rw [hkeep.2.1] at h2; exact Bool.noConfusion h2
    · rw [hkeep.2.2.1] at h3; exact Bool.noConfusion h3
  · decide

/-- Witness for C10: `@Figueroa2020` begins with `@Fig` and is indeed
absent from the kept-citation list of a text containing it. -/
theorem c10_prefix_exclusion_witness :
    ("@Fig".toList.isPrefixOf "@Figueroa2020".toList ||
      "@Tbl".toList.isPrefixOf "@Figueroa2020".toList ||
      "@email".toList.isPrefixOf "@Figueroa2020".toList) = true ∧
    "@Figueroa2020".toList ∉
      keptCitations "cites @Figueroa2020 and @doe2020".toList :=
  ⟨by decide,
    c10_prefix_exclusion.1 "cites @Figueroa2020 and @doe2020".toList
      "@Figueroa2020".toList (by decide)⟩

/-! The Label Pre-Scanner of `build_digital_garden`.  A member file is
kept as its stem plus its content as the `splitlines()` line list
(neither callout token contains a line separator, so per-line
occurrence counts sum to the full-content `re.findall` count). -/

/-- The figure callout token `[!figure]`. -/
def figTok : List Char := "[!figure]".toList

/-- The table callout token `[!table]`. -/
def tblTok : List Char := "[!table]".toList

/-- Occurrences of `pat` in a text, counting every position where it
is a prefix.  The callout tokens have no nonempty border (no proper
prefix that is also a suffix), so occurrences cannot overlap and this
equals the non-overlapping `re.findall` count. -/
def countSub (pat : List Char) : List Char → Nat
  | [] => 0
  | c :: rest => (if pat.isPrefixOf (c :: rest) then 1 else 0) + countSub pat rest

/-- The identifier class `[a-zA-Z0-9_\-]` of the label regexes. -/
def isIdentChar (c : Char) : Bool :=
  c.isAlpha || c.isDigit || c = '_' || c = '-'

/-- First match of `#(<tag><ident>+)` in a line, returning the capture
group `<tag><ident-run>` (maximal munch), as `re.search` does for the
label regexes `#(fig:[a-zA-Z0-9_\-]+)` and `#(tbl:[a-zA-Z0-9_\-]+)`. -/
def findLabel (tag : List Char) : List Char → Option (List Char)
  | [] => none
  | '#' :: rest =>
    if tag.isPrefixOf rest then
      let run := (rest.drop tag.length).takeWhile isIdentChar
      if run.isEmpty then findLabel tag rest else some (tag ++ run)
    else findLabel tag rest
  | _ :: rest => findLabel tag rest

/-- The tag of figure labels. -/
def figTag : List Char := "fig:".toList

/-- The tag of table labels. -/
def tblTag : List Char := "tbl:".toList

/-- A value of the global label map: assigned global number and owning
(garden-prefixed) file stem. -/
structure LabelEntry where
  num : Nat
  file : List Char
deriving DecidableEq, Repr

/-- State of the per-line scan loop: the two running counters, the
global label map (a Python dict modelled as its assignment sequence;
reads take the latest assignment, see `mapLookup`), and two ghost
traces recording, in scan order, the number assigned at each
figure-marker line resp. table-marker line (labelled or not). -/
structure LineScanState where
  current_fig : Nat
  current_tbl : Nat
  global_label_map : List (List Char × LabelEntry)
  figTrace : List Nat
  tblTrace : List Nat
deriving DecidableEq, Repr

/-- One iteration of `for line in content.splitlines()`: a line
containing `[!figure]` increments the figure counter and, when a
figure label is present, assigns it the new counter value; `elif` for
`[!table]`.  The traces record the assigned number either way. -/
def scanLine (file_stem : List Char) (st : LineScanState) (line : List Char) :
    LineScanState :=
  if 0 < countSub figTok line then
    match findLabel figTag line with
    | some lab =>
      { st with
        current_fig := st.current_fig + 1
        global_label_map :=
          st.global_label_map ++ [(lab, ⟨st.current_fig + 1, file_stem⟩)]
        figTrace := st.figTrace ++ [st.current_fig + 1] }
    | none =>
      { st with
        current_fig := st.current_fig + 1
        figTrace := st.figTrace ++ [st.current_fig + 1] }
  else if 0 < countSub tblTok line then
    match findLabel tblTag line with
    | some lab =>
      { st with
        current_tbl := st.current_tbl + 1
        global_label_map :=
          st.global_label_map ++ [(lab, ⟨st.current_tbl + 1, file_stem⟩)]
        tblTrace := st.tblTrace ++ [st.current_tbl + 1] }
    | none =>
      { st with
        current_tbl := st.current_tbl + 1
        tblTrace := st.tblTrace ++ [st.current_tbl + 1] }
  else st

/-- A member file: filename stem and content line list. -/
structure MemberFile where
  stem : List Char
  lines : List (List Char)

/-- One entry of `file_offsets`. -/
structure Offsets where
  figure_offset : Nat
  table_offset : Nat
deriving DecidableEq, Repr

/-- State threaded through the pre-scan file loop. -/
structure PreScanState where
  cumulative_figures : Nat
  cumulative_tables : Nat
  file_offsets : List Offsets
  global_label_map : List (List Char × LabelEntry)
  figTrace : List Nat
  tblTrace : List Nat
deriving DecidableEq, Repr

/-- `num_figures = len(re.findall(r"\[!figure\]", content))`. -/
def countFigures (f : MemberFile) : Nat := (f.lines.map (countSub figTok)).sum

/-- `num_tables = len(re.findall(r"\[!table\]", content))`. -/
def countTables (f : MemberFile) : Nat := (f.lines.map (countSub tblTok)).sum

/-- One iteration of the pre-scan file loop: record this file's
offsets (the cumulative counts before its own markers), walk its
lines from the cumulative counts, then add the `re.findall` totals to
the cumulative counts. -/
def preScanFile (st : PreScanState) (f : MemberFile) : PreScanState :=
  let file_stem := "garden_".toList ++ f.stem
  let ls := f.lines.foldl (scanLine file_stem)
    { current_fig := st.cumulative_figures
      current_tbl := st.cumulative_tables
      global_label_map := st.global_label_map
      figTrace := st.figTrace
      tblTrace := st.tblTrace }
  { cumulative_figures := st.cumulative_figures + countFigures f
    cumulative_tables := st.cumulative_tables + countTables f
    file_offsets := st.file_offsets ++ [⟨st.cumulative_figures, st.cumulative_tables⟩]
    global_label_map := ls.global_label_map
    figTrace := ls.figTrace
    tblTrace := ls.tblTrace }

/-- The pre-scan pass of `build_digital_garden` over the member-file
list (readable files; an unreadable file would take the warning
branch, outside this read-only model). -/
def preScan (files : List MemberFile) : PreScanState :=
  files.foldl preScanFile ⟨0, 0, [], [], [], []⟩

/-- Python dict read on the assignment sequence: the latest assignment
to the key wins. -/
def mapLookup (m : List (List Char × LabelEntry)) (k : List Char) :
    Option LabelEntry :=
  m.foldl (fun acc e => if e.1 = k then some e.2 else acc) none

/-- The assigned numbers of the figure-labelled entries of a map, in
insertion order. -/
def figNums (m : List (List Char × LabelEntry)) : List Nat :=
  m.filterMap (fun e => if figTag.isPrefixOf e.1 then some e.2.num else none)

/-- The assigned numbers of the table-labelled entries of a map, in
insertion order. -/
def tblNums (m : List (List Char × LabelEntry)) : List Nat :=
  m.filterMap (fun e => if tblTag.isPrefixOf e.1 then some e.2.num else none)

/-- The highest figure number recorded in the global label map. -/
def highestFig (m : List (List Char × LabelEntry)) : Nat :=
  (figNums m).foldr max 0

/-- The highest table number recorded in the global label map. -/
def highestTbl (m : List (List Char × LabelEntry)) : Nat :=
  (tblNums m).foldr max 0

/-- Per-file figure and table marker totals of the files preceding
each position, as the pre-scan records them. -/
def offsetsFrom : Nat → Nat → List MemberFile → List Offsets
  | _, _, [] => []
  | a, b, f :: fs => ⟨a, b⟩ :: offsetsFrom (a + countFigures f) (b + countTables f) fs

/-- Total `re.findall` figure count of a file list. -/
def totalFigures (files : List MemberFile) : Nat := (files.map countFigures).sum

/-- Total `re.findall` table count of a file list. -/
def totalTables (files : List MemberFile) : Nat := (files.map countTables).sum

/-- Each line carries at most one callout token in total: the regime
in which the `re.findall` totals agree with the line-based counter
increments (and with the `elif` that ignores a table token on a
figure line). -/
def oneMarkerPerLine (files : List MemberFile) : Prop :=
  ∀ f ∈ files, ∀ l ∈ f.lines, countSub figTok l + countSub tblTok l ≤ 1

/-- Every marker line carries a parsable label of its kind. -/
def allLabeled (files : List MemberFile) : Prop :=
  ∀ f ∈ files, ∀ l ∈ f.lines,
    (0 < countSub figTok l → (findLabel figTag l).isSome) ∧
    (countSub figTok l = 0 → 0 < countSub tblTok l → (findLabel tblTag l).isSome)

example :
    (preScan [⟨"a".toList, ["> [!figure] #fig:x".toList, "text".toList]⟩,
      ⟨"b".toList, ["> [!table] #tbl:y".toList, "> [!figure]".toList]⟩]) =
    ⟨2, 1, [⟨0, 0⟩, ⟨1, 0⟩],
      [("fig:x".toList, ⟨1, "garden_a".toList⟩), ("tbl:y".toList, ⟨1, "garden_b".toList⟩)],
      [1, 2], [1]⟩ := by decide

/-! Lemmas about the pre-scan. -/

/-- Test selecting the lines that take the figure branch of the line
loop. -/
def figLineB (l : List Char) : Bool := decide (0 < countSub figTok l)

/-- Test selecting the lines that take the table branch (the `elif`):
no figure token, a table token. -/
def tblLineB (l : List Char) : Bool :=
  decide (countSub figTok l = 0 ∧ 0 < countSub tblTok l)

/-- Number of figure-branch lines. -/
def figLinesCount (lines : List (List Char)) : Nat := lines.countP figLineB

/-- Number of table-branch lines. -/
def tblLinesCount (lines : List (List Char)) : Nat := lines.countP tblLineB

lemma range'_glue : ∀ (m a n : Nat),
    List.range' a m ++ List.range' (a + m) n = List.range' a (m + n) := by
  intro m
  induction m with
  | zero => intro a n; simp
  | succ m ih =>
    intro a n
    rw [List.range'_succ, show m + 1 + n = (m + n) + 1 from by omega,
      List.range'_succ, List.cons_append,
      show a + (m + 1) = (a + 1) + m from by omega, ih (a + 1) n]

lemma scanLines_counts (stem : List Char) :
    ∀ (lines : List (List Char)) (st : LineScanState),
      (lines.foldl (scanLine stem) st).current_fig =
          st.current_fig + figLinesCount lines ∧
      (lines.foldl (scanLine stem) st).current_tbl =
          st.current_tbl + tblLinesCount lines ∧
      (lines.foldl (scanLine stem) st).figTrace =
          st.figTrace ++ List.range' (st.current_fig + 1) (figLinesCount lines) ∧
      (lines.foldl (scanLine stem) st).tblTrace =
          st.tblTrace ++ List.range' (st.current_tbl + 1) (tblLinesCount lines) := by
  intro lines
  induction lines with
  | nil => intro st; simp [figLinesCount, tblLinesCount]
  | cons l rest ih =>
    intro st
    rw [List.foldl_cons]
    by_cases hf : 0 < countSub figTok l
    · have hcf : figLineB l = true := by simp [figLineB, hf]
      have hct : tblLineB l = false := by simp [tblLineB]; omega
      have hfold : ∀ st2 : LineScanState, scanLine stem st l = st2 →
          st2.current_fig = st.current_fig + 1 ∧ st2.current_tbl = st.current_tbl ∧
          st2.figTrace = st.figTrace ++ [st.current_fig + 1] ∧
          st2.tblTrace = st.tblTrace := by
        intro st2 hst2
        cases hl : findLabel figTag l <;> simp [scanLine, hf, hl] at hst2 <;>
          simp [← hst2]
      obtain ⟨e1, e2, e3, e4⟩ := hfold (scanLine stem st l) rfl
      obtain ⟨i1, i2, i3, i4⟩ := ih (scanLine stem st l)
      refine ⟨?_, ?_, ?_, ?_⟩
      · simp only [i1, e1, figLinesCount, List.countP_cons, hcf, if_true]; omega
      · simp only [i2, e2, tblLinesCount, List.countP_cons, hct]; simp
      · simp only [i3, e3, e1, figLinesCount, List.countP_cons, hcf, if_true]
        rw [List.range'_succ]
        simp [List.append_assoc]
      · simp only [i4, e4, e2, tblLinesCount, List.countP_cons, hct]; simp
    · by_cases ht : 0 < countSub tblTok l
      · have hcf : figLineB l = false := by simp [figLineB]; omega
        have hct : tblLineB l = true := by simp [tblLineB]; omega
        have hfold : ∀ st2 : LineScanState, scanLine stem st l = st2 →
            st2.current_fig = st.current_fig ∧ st2.current_tbl = st.current_tbl + 1 ∧
            st2.figTrace = st.figTrace ∧
            st2.tblTrace = st.tblTrace ++ [st.current_tbl + 1] := by
          intro st2 hst2
          cases hl : findLabel tblTag l <;> simp [scanLine, hf, ht, hl] at hst2 <;>
            simp [← hst2]
        obtain ⟨e1, e2, e3, e4⟩ := hfold (scanLine stem st l) rfl
        obtain ⟨i1, i2, i3, i4⟩ := ih (scanLine stem st l)
        refine ⟨?_, ?_, ?_, ?_⟩
        · simp only [i1, e1, figLinesCount, List.countP_cons, hcf]; simp
        · simp only [i2, e2, tblLinesCount, List.countP_cons, hct, if_true]; omega
        · simp only [i3, e3, e1, figLinesCount, List.countP_cons, hcf]; simp
        · simp only [i4, e4, e2, tblLinesCount, List.countP_cons, hct, if_true]
          rw [List.range'_succ]
          simp [List.append_assoc]
      · have hcf : figLineB l = false := by simp [figLineB]; omega
        have hct : tblLineB l = false := by simp [tblLineB]; omega
        have e : scanLine stem st l = st := by simp [scanLine, hf, ht]
        rw [e]
        obtain ⟨i1, i2, i3, i4⟩ := ih st
        refine ⟨?_, ?_, ?_, ?_⟩ <;>
          simp [i1, i2, i3, i4, figLinesCount, tblLinesCount, List.countP_cons, hcf, hct]

lemma findLabel_shape : ∀ {tag l lab : List Char},
    findLabel tag l = some lab → ∃ run, lab = tag ++ run := by
  intro tag l
  induction l using MdManuscript.findLabel.induct tag with
  | case1 => intro lab h; simp [findLabel] at h
  | case2 rest hpre run hempty =>
    rename_i ih
    intro lab h
    simp only [findLabel, hpre, if_true, hempty] at h
    exact ih (by simpa using h)
  | case3 rest hpre run =>
    rename_i hne
    intro lab h
    simp [findLabel, hpre, hne] at h
    exact ⟨_, h.symm⟩
  | case4 rest hpre ih =>
    intro lab h
    simp [findLabel, hpre] at h
    exact ih h
  | case5 c rest hne ih =>
    intro lab h
    have e : findLabel tag (c :: rest) = findLabel tag rest := by
      rw [findLabel.eq_def]
      split <;> simp_all
    rw [e] at h
    exact ih h

lemma isPrefixOf_self_append : ∀ (l r : List Char), l.isPrefixOf (l ++ r) = true := by
  intro l
  induction l with
  | nil => intro r; simp [List.isPrefixOf]
  | cons c t ih => intro r; simp [List.isPrefixOf, ih]

lemma figNums_append (m1 m2 : List (List Char × LabelEntry)) :
    figNums (m1 ++ m2) = figNums m1 ++ figNums m2 := by
  simp [figNums, List.filterMap_append]

lemma tblNums_append (m1 m2 : List (List Char × LabelEntry)) :
    tblNums (m1 ++ m2) = tblNums m1 ++ tblNums m2 := by
  simp [tblNums, List.filterMap_append]

lemma figNums_fig_singleton (run : List Char) (e : LabelEntry) :
    figNums [(figTag ++ run, e)] = [e.num] := by
  simp [figNums, isPrefixOf_self_append]

lemma tblNums_tbl_singleton (run : List Char) (e : LabelEntry) :
    tblNums [(tblTag ++ run, e)] = [e.num] := by
  simp [tblNums, isPrefixOf_self_append]

lemma figNums_tbl_singleton (run : List Char) (e : LabelEntry) :
    figNums [(tblTag ++ run, e)] = [] := by
  simp [figNums]
  intro h
  simp [figTag, tblTag, List.isPrefixOf] at h

lemma tblNums_fig_singleton (run : List Char) (e : LabelEntry) :
    tblNums [(figTag ++ run, e)] = [] := by
  simp [tblNums]
  intro h
  simp [figTag, tblTag, List.isPrefixOf] at h

lemma counts_match : ∀ (lines : List (List Char)),
    (∀ l ∈ lines, countSub figTok l + countSub tblTok l ≤ 1) →
    figLinesCount lines = (lines.map (countSub figTok)).sum ∧
    tblLinesCount lines = (lines.map (countSub tblTok)).sum := by
  intro lines
  induction lines with
  | nil => intro _; simp [figLinesCount, tblLinesCount]
  | cons l rest ih =>
    intro h
    have hl := h l (by simp)
    obtain ⟨i1, i2⟩ := ih (fun x hx => h x (by simp [hx]))
    constructor
    · by_cases hf : 0 < countSub figTok l
      · have hb : figLineB l = true := by simp [figLineB, hf]
        simp only [figLinesCount, List.countP_cons, hb, if_true, List.map_cons,
          List.sum_cons]
        simp only [figLinesCount] at i1
        omega
      · have hb : figLineB l = false := by simp [figLineB]; omega
        simp only [figLinesCount, List.countP_cons, hb, Bool.false_eq_true, if_false,
          List.map_cons, List.sum_cons]
        simp only [figLinesCount] at i1
        omega
    · by_cases ht : countSub figTok l = 0 ∧ 0 < countSub tblTok l
      · have hb : tblLineB l = true := by simp [tblLineB, ht.1, ht.2]
        simp only [tblLinesCount, List.countP_cons, hb, if_true, List.map_cons,
          List.sum_cons]
        simp only [tblLinesCount] at i2
        omega
      · have hb : tblLineB l = false := by simp [tblLineB]; omega
        have htz : countSub tblTok l = 0 := by omega
        simp only [tblLinesCount, List.countP_cons, hb, Bool.false_eq_true, if_false,
          List.map_cons, List.sum_cons]
        simp only [tblLinesCount] at i2
        omega

lemma scanLines_map (stem : List Char) :
    ∀ (lines : List (List Char)) (st : LineScanState),
      (∀ l ∈ lines,
        (0 < countSub figTok l → (findLabel figTag l).isSome) ∧
        (countSub figTok l = 0 → 0 < countSub tblTok l → (findLabel tblTag l).isSome)) →
      figNums (lines.foldl (scanLine stem) st).global_label_map =
          figNums st.global_label_map ++
            List.range' (st.current_fig + 1) (figLinesCount lines) ∧
      tblNums (lines.foldl (scanLine stem) st).global_label_map =
          tblNums st.global_label_map ++
            List.range' (st.current_tbl + 1) (tblLinesCount lines) := by
  intro lines
  induction lines with
  | nil => intro st _; simp [figLinesCount, tblLinesCount]
  | cons l rest ih =>
    intro st h
    have hl := h l (by simp)
    have htail : ∀ x ∈ rest,
        (0 < countSub figTok x → (findLabel figTag x).isSome) ∧
        (countSub figTok x = 0 → 0 < countSub tblTok x → (findLabel tblTag x).isSome) :=
      fun x hx => h x (by simp [hx])
    rw [List.foldl_cons]
    by_cases hf : 0 < countSub figTok l
    · have hcf : figLineB l = true := by simp [figLineB, hf]
      have hct : tblLineB l = false := by simp [tblLineB]; omega
      obtain ⟨lab, hlab⟩ := Option.isSome_iff_exists.mp (hl.1 hf)
      obtain ⟨run, hrun⟩ := findLabel_shape hlab
      have e : scanLine stem st l = { st with
          current_fig := st.current_fig + 1
          global_label_map :=
            st.global_label_map ++ [(lab, ⟨st.current_fig + 1, stem⟩)]
          figTrace := st.figTrace ++ [st.current_fig + 1] } := by
        simp [scanLine, hf, hlab]
      rw [e]
      obtain ⟨i1, i2⟩ := ih _ htail
      constructor
      · rw [i1]
        simp only [hrun, figNums_append, figNums_fig_singleton]
        simp only [figLinesCount, List.countP_cons, hcf, if_true, List.append_assoc]
        rw [List.range'_succ]
        simp
      · rw [i2]
        simp only [hrun, tblNums_append, tblNums_fig_singleton, List.append_nil]
        simp only [tblLinesCount, List.countP_cons, hct]
        simp
    · have hzf : countSub figTok l = 0 := by omega
      have hcf : figLineB l = false := by simp [figLineB]; omega
      by_cases ht : 0 < countSub tblTok l
      · have hct : tblLineB l = true := by simp [tblLineB, hzf, ht]
        obtain ⟨lab, hlab⟩ := Option.isSome_iff_exists.mp (hl.2 hzf ht)
        obtain ⟨run, hrun⟩ := findLabel_shape hlab
        have e : scanLine stem st l = { st with
            current_tbl := st.current_tbl + 1
            global_label_map :=
              st.global_label_map ++ [(lab, ⟨st.current_tbl + 1, stem⟩)]
            tblTrace := st.tblTrace ++ [st.current_tbl + 1] } := by
          simp [scanLine, hf, ht, hlab]
        rw [e]
        obtain ⟨i1, i2⟩ := ih _ htail
        constructor
        · rw [i1]
          simp only [hrun, figNums_append, figNums_tbl_singleton, List.append_nil]
          simp only [figLinesCount, List.countP_cons, hcf]
          simp
        · rw [i2]
          simp only [hrun, tblNums_append, tblNums_tbl_singleton]
          simp only [tblLinesCount, List.countP_cons, hct, if_true, List.append_assoc]
          rw [List.range'_succ]
          simp
      · have hct : tblLineB l = false := by simp [tblLineB]; omega
        have e : scanLine stem st l = st := by simp [scanLine, hf, ht]
        rw [e]
        obtain ⟨i1, i2⟩ := ih _ htail
        constructor
        · rw [i1]; simp [figLinesCount, List.countP_cons, hcf]
        · rw [i2]; simp [tblLinesCount, List.countP_cons, hct]

lemma preScanFile_fields (st : PreScanState) (f : MemberFile) :
    (preScanFile st f).cumulative_figures = st.cumulative_figures + countFigures f ∧
    (preScanFile st f).cumulative_tables = st.cumulative_tables + countTables f ∧
    (preScanFile st f).file_offsets =
      st.file_offsets ++ [⟨st.cumulative_figures, st.cumulative_tables⟩] := by
  simp [preScanFile]

lemma preScan_fold_offsets : ∀ (files : List MemberFile) (st : PreScanState),
    (files.foldl preScanFile st).file_offsets =
        st.file_offsets ++ offsetsFrom st.cumulative_figures st.cumulative_tables files ∧
    (files.foldl preScanFile st).cumulative_figures =
        st.cumulative_figures + totalFigures files ∧
    (files.foldl preScanFile st).cumulative_tables =
        st.cumulative_tables + totalTables files := by
  intro files
  induction files with
  | nil => intro st; simp [offsetsFrom, totalFigures, totalTables]
  | cons f rest ih =>
    intro st
    rw [List.foldl_cons]
    obtain ⟨i1, i2, i3⟩ := ih (preScanFile st f)
    obtain ⟨e1, e2, e3⟩ := preScanFile_fields st f
    refine ⟨?_, ?_, ?_⟩
    · rw [i1, e1, e2, e3, List.append_assoc, offsetsFrom]
      simp
    · rw [i2, e1]
      simp [totalFigures]
      omega
    · rw [i3, e2]
      simp [totalTables]
      omega

/-- The line-scan start state a file's scan uses. -/
def fileStartState (st : PreScanState) : LineScanState :=
  ⟨st.cumulative_figures, st.cumulative_tables, st.global_label_map,
    st.figTrace, st.tblTrace⟩

lemma preScanFile_scan_fields (st : PreScanState) (f : MemberFile) :
    (preScanFile st f).figTrace =
        (f.lines.foldl (scanLine ("garden_".toList ++ f.stem)) (fileStartState st)).figTrace ∧
    (preScanFile st f).tblTrace =
        (f.lines.foldl (scanLine ("garden_".toList ++ f.stem)) (fileStartState st)).tblTrace ∧
    (preScanFile st f).global_label_map =
        (f.lines.foldl (scanLine ("garden_".toList ++ f.stem))
          (fileStartState st)).global_label_map := by
  simp [preScanFile, fileStartState]

lemma preScan_fold_traces : ∀ (files : List MemberFile) (st : PreScanState),
    (∀ f ∈ files, ∀ l ∈ f.lines, countSub figTok l + countSub tblTok l ≤ 1) →
    (files.foldl preScanFile st).figTrace =
        st.figTrace ++ List.range' (st.cumulative_figures + 1) (totalFigures files) ∧
    (files.foldl preScanFile st).tblTrace =
        st.tblTrace ++ List.range' (st.cumulative_tables + 1) (totalTables files) := by
  intro files
  induction files with
  | nil => intro st _; simp [totalFigures, totalTables]
  | cons f rest ih =>
    intro st h
    rw [List.foldl_cons]
    obtain ⟨hm1, hm2⟩ := counts_match f.lines (h f (by simp))
    have hc := scanLines_counts ("garden_".toList ++ f.stem) f.lines (fileStartState st)
    obtain ⟨s1, s2, s3⟩ := preScanFile_scan_fields st f
    obtain ⟨e1, e2, e3⟩ := preScanFile_fields st f
    obtain ⟨i1, i2⟩ := ih (preScanFile st f) (fun x hx => h x (by simp [hx]))
    have hcf : figLinesCount f.lines = countFigures f := by
      rw [hm1]; rfl
    have hct : tblLinesCount f.lines = countTables f := by
      rw [hm2]; rfl
    constructor
    · rw [i1, s1, hc.2.2.1, e1, fileStartState]
      simp only [hcf]
      rw [List.append_assoc,
        show st.cumulative_figures + countFigures f + 1 =
          (st.cumulative_figures + 1) + countFigures f from by omega,
        range'_glue]
      simp [totalFigures]
    · rw [i2, s2, hc.2.2.2, e2, fileStartState]
      simp only [hct]
      rw [List.append_assoc,
        show st.cumulative_tables + countTables f + 1 =
          (st.cumulative_tables + 1) + countTables f from by omega,
        range'_glue]
      simp [totalTables]

lemma preScan_fold_map : ∀ (files : List MemberFile) (st : PreScanState),
    (∀ f ∈ files, ∀ l ∈ f.lines, countSub figTok l + countSub tblTok l ≤ 1) →
    (∀ f ∈ files, ∀ l ∈ f.lines,
      (0 < countSub figTok l → (findLabel figTag l).isSome) ∧
      (countSub figTok l = 0 → 0 < countSub tblTok l → (findLabel tblTag l).isSome)) →
    figNums (files.foldl preScanFile st).global_label_map =
        figNums st.global_label_map ++
          List.range' (st.cumulative_figures + 1) (totalFigures files) ∧
    tblNums (files.foldl preScanFile st).global_label_map =
        tblNums st.global_label_map ++
          List.range' (st.cumulative_tables + 1) (totalTables files) := by
  intro files
  induction files with
  | nil => intro st _ _; simp [totalFigures, totalTables]
  | cons f rest ih =>
    intro st h hlab
    rw [List.foldl_cons]
    obtain ⟨hm1, hm2⟩ := counts_match f.lines (h f (by simp))
    have hc := scanLines_map ("garden_".toList ++ f.stem) f.lines (fileStartState st)
      (hlab f (by simp))
    obtain ⟨s1, s2, s3⟩ := preScanFile_scan_fields st f
    obtain ⟨e1, e2, e3⟩ := preScanFile_fields st f
    obtain ⟨i1, i2⟩ := ih (preScanFile st f) (fun x hx => h x (by simp [hx]))
      (fun x hx => hlab x (by simp [hx]))
    have hcf : figLinesCount f.lines = countFigures f := by
      rw [hm1]; rfl
    have hct : tblLinesCount f.lines = countTables f := by
      rw [hm2]; rfl
    constructor
    · rw [i1, s3, hc.1, e1, fileStartState]
      simp only [hcf]
      rw [List.append_assoc,
        show st.cumulative_figures + countFigures f + 1 =
          (st.cumulative_figures + 1) + countFigures f from by omega,
        range'_glue]
      simp [totalFigures]
    · rw [i2, s3, hc.2, e2, fileStartState]
      simp only [hct]
      rw [List.append_assoc,
        show st.cumulative_tables + countTables f + 1 =
          (st.cumulative_tables + 1) + countTables f from by omega,
        range'_glue]
      simp [totalTables]

lemma offsetsFrom_get : ∀ (files : List MemberFile) (a b i : Nat), i < files.length →
    (offsetsFrom a b files)[i]? =
      some ⟨a + totalFigures (files.take i), b + totalTables (files.take i)⟩ := by
  intro files
  induction files with
  | nil => intro a b i hi; simp at hi
  | cons f rest ih =>
    intro a b i hi
    cases i with
    | zero => simp [offsetsFrom, totalFigures, totalTables]
    | succ i =>
      rw [offsetsFrom]
      simp only [List.getElem?_cons_succ]
      rw [ih _ _ i (by simpa using hi)]
      simp only [List.take_succ_cons, totalFigures, totalTables, List.map_cons,
        List.sum_cons, Option.some.injEq, Offsets.mk.injEq]
      omega

lemma lookup_foldl (k : List Char) :
    ∀ (m : List (List Char × LabelEntry)) (acc : Option LabelEntry),
      m.foldl (fun acc e => if e.1 = k then some e.2 else acc) acc =
        ((m.filter (fun e => e.1 == k)).getLast?).elim acc (fun e => some e.2) := by
  intro m
  induction m with
  | nil => intro acc; simp
  | cons e t ih =>
    intro acc
    rw [List.foldl_cons]
    by_cases he : e.1 = k
    · rw [if_pos he, ih (some e.2), List.filter_cons_of_pos (by simp [he])]
      cases hf : t.filter (fun e => e.1 == k) with
      | nil => simp
      | cons x xs =>
        rw [List.getLast?_cons_cons]
        cases hxx : (x :: xs).getLast? with
        | none => simp [List.getLast?_isSome] at hxx
        | some y => simp
    · rw [if_neg he, ih acc, List.filter_cons_of_neg (by simp [he])]

/-! Claims C1, C2 and C8 about the Label Pre-Scanner. -/

/-- Two files exhibiting the counting mismatch: the first file's single
line holds two figure tokens.  The line loop assigns one number for
the line, while the `re.findall` total adds two to the cumulative
counter. -/
def c1cexFiles : List MemberFile :=
  [⟨"a".toList, ["x [!figure] y [!figure] z".toList]⟩,
   ⟨"b".toList, ["> [!figure] #fig:second".toList]⟩]

/-- C1 counterexample: on `c1cexFiles` the numbers assigned to the
figure markers, in file-then-position order, are `[1, 3]` — not a
sequence increasing by exactly 1 from 1 (2 is skipped, because the
offsets/cumulative counters use the `re.findall` occurrence count
while number assignment increments once per marker line).  So the
claimed invariant fails for this member-file list. -/
theorem c1_order_invariant_cex :
    (preScan c1cexFiles).figTrace = [1, 3] ∧
    (preScan c1cexFiles).figTrace ≠
      List.range' 1 (preScan c1cexFiles).figTrace.length := by
  constructor
  · decide
  · decide

/-- C1 amended: provided every line of every member file carries at
most one callout token in total, the figure numbers assigned by the
pre-scan, read in file order then in-file position order, are exactly
`1, 2, …, N` (strictly increasing by 1, starting at 1, no gaps or
reuse, labels or not); table markers independently satisfy the same
with their own counter; and each file's recorded offsets equal the
total figure/table marker counts of all preceding files. -/
theorem c1_order_invariant_amended (files : List MemberFile)
    (h : oneMarkerPerLine files) :
    (preScan files).figTrace = List.range' 1 (totalFigures files) ∧
    (preScan files).tblTrace = List.range' 1 (totalTables files) ∧
    ∀ i, i < files.length →
      (preScan files).file_offsets[i]? =
        some ⟨totalFigures (files.take i), totalTables (files.take i)⟩ := by
  obtain ⟨t1, t2⟩ := preScan_fold_traces files ⟨0, 0, [], [], [], []⟩ h
  obtain ⟨o1, _, _⟩ := preScan_fold_offsets files ⟨0, 0, [], [], [], []⟩
  refine ⟨by simpa [preScan] using t1, by simpa [preScan] using t2, ?_⟩
  intro i hi
  rw [preScan, o1]
  simp only [List.nil_append]
  rw [offsetsFrom_get files 0 0 i hi]
  simp

/-- Two well-formed member files for the C1 witness. -/
def c1demoFiles : List MemberFile :=
  [⟨"a".toList, ["> [!figure] #fig:one".toList]⟩,
   ⟨"b".toList, ["> [!table]".toList, "> [!figure]".toList]⟩]

/-- Witness for the amended C1 on a concrete two-file list. -/
theorem c1_order_invariant_amended_witness :
    (preScan c1demoFiles).figTrace = [1, 2] ∧
    (preScan c1demoFiles).tblTrace = [1] ∧
    (preScan c1demoFiles).file_offsets[1]? = some ⟨1, 0⟩ := by
  have h := c1_order_invariant_amended c1demoFiles (by unfold oneMarkerPerLine; decide)
  exact ⟨h.1.trans (by decide), h.2.1.trans (by decide),
    (h.2.2 1 (by decide)).trans (by decide)⟩

/-- C2: for three readable member files with marker counts
(2 figures, 0 tables), (1 figure, 1 table), (0 figures, 2 tables),
each marker on its own line and carrying an explicit label, the
pre-scan records FileOffsets `[{0,0}, {2,0}, {3,1}]` and the highest
figure and table numbers in the GlobalLabelMap both equal 3. -/
theorem c2_offset_and_highest (f1 f2 f3 : MemberFile)
    (hf1 : countFigures f1 = 2) (ht1 : countTables f1 = 0)
    (hf2 : countFigures f2 = 1) (ht2 : countTables f2 = 1)
    (hf3 : countFigures f3 = 0) (ht3 : countTables f3 = 2)
    (hone : oneMarkerPerLine [f1, f2, f3])
    (hlab : allLabeled [f1, f2, f3]) :
    (preScan [f1, f2, f3]).file_offsets = [⟨0, 0⟩, ⟨2, 0⟩, ⟨3, 1⟩] ∧
    highestFig (preScan [f1, f2, f3]).global_label_map = 3 ∧
    highestTbl (preScan [f1, f2, f3]).global_label_map = 3 := by
  obtain ⟨o1, _, _⟩ := preScan_fold_offsets [f1, f2, f3] ⟨0, 0, [], [], [], []⟩
  obtain ⟨m1, m2⟩ := preScan_fold_map [f1, f2, f3] ⟨0, 0, [], [], [], []⟩ hone hlab
  have htotF : totalFigures [f1, f2, f3] = 3 := by
    simp [totalFigures, hf1, hf2, hf3]
  have htotT : totalTables [f1, f2, f3] = 3 := by
    simp [totalTables, ht1, ht2, ht3]
  refine ⟨?_, ?_, ?_⟩
  · rw [preScan, o1]
    simp [offsetsFrom, hf1, hf2, hf3, ht1, ht2, ht3]
  · rw [highestFig, preScan, m1, htotF]
    have e : figNums (⟨0, 0, [], [], [], []⟩ : PreScanState).global_label_map = [] := rfl
    rw [e, List.nil_append]
    decide
  · rw [highestTbl, preScan, m2, htotT]
    have e : tblNums (⟨0, 0, [], [], [], []⟩ : PreScanState).global_label_map = [] := rfl
    rw [e, List.nil_append]
    decide

/-- First member file of the C2 witness. -/
def c2demo1 : MemberFile :=
  ⟨"a".toList, ["> [!figure] #fig:a1".toList, "> [!figure] #fig:a2".toList]⟩

/-- Second member file of the C2 witness. -/
def c2demo2 : MemberFile :=
  ⟨"b".toList, ["> [!figure] #fig:b1".toList, "> [!table] #tbl:b2".toList]⟩

/-- Third member file of the C2 witness. -/
def c2demo3 : MemberFile :=
  ⟨"c".toList, ["> [!table] #tbl:c1".toList, "> [!table] #tbl:c2".toList]⟩

/-- Witness for C2 on three concrete member files. -/
theorem c2_offset_and_highest_witness :
    (preScan [c2demo1, c2demo2, c2demo3]).file_offsets = [⟨0, 0⟩, ⟨2, 0⟩, ⟨3, 1⟩] ∧
    highestFig (preScan [c2demo1, c2demo2, c2demo3]).global_label_map = 3 ∧
    highestTbl (preScan [c2demo1, c2demo2, c2demo3]).global_label_map = 3 :=
  c2_offset_and_highest c2demo1 c2demo2 c2demo3 (by decide) (by decide) (by decide)
    (by decide) (by decide) (by decide) (by unfold oneMarkerPerLine; decide)
    (by unfold allLabeled; decide)

/-- Two member files whose markers claim the same label token. -/
def c8Files : List MemberFile :=
  [⟨"a".toList, ["> [!figure] #fig:dup".toList]⟩,
   ⟨"b".toList, ["> [!figure] #fig:dup".toList]⟩]

/-- C8: the global label map is a dict whose reads return the latest
assignment, so for every member-file list a token's binding is the
(number, file) pair of the occurrence written last in
file-then-position scan order — a duplicate label is silently
overwritten by the later occurrence, and the map still assigns exactly
one pair per token (the lookup is single-valued by construction).  On
`c8Files`, where both files label a figure `#fig:dup`, the map binds
`fig:dup` to number 2 in file `garden_b` — the later occurrence. -/
theorem c8_duplicate_label_overwrite :
    (∀ (files : List MemberFile) (k : List Char),
      mapLookup (preScan files).global_label_map k =
        (((preScan files).global_label_map.filter (fun e => e.1 == k)).getLast?).map
          (fun e => e.2)) ∧
    mapLookup (preScan c8Files).global_label_map "fig:dup".toList =
      some ⟨2, "garden_b".toList⟩ := by
  constructor
  · intro files k
    rw [mapLookup, lookup_foldl k]
    cases ((preScan files).global_label_map.filter (fun e => e.1 == k)).getLast? <;> rfl
  · decide

/-! The merge phase of `build_document`: the content of the temp
merged file handed (as `input_file`) to the conversion collaborator.
Format selection, figure conversion and typography overrides do not
touch this content and are out of scope. -/

/-- The `f"---\nnocite: |\n  {si_cites}\n---\n\n"` header. -/
def nociteHeader (cites : List Char) : List Char :=
  "---\nnocite: |\n  ".toList ++ cites ++ "\n---\n\n".toList

/-- The merge phase of `build_document`: resolve transclusions in the
source; when a frontmatter file is supplied write it, a newline and
the resolved body with its own leading metadata block stripped
(`split("---", 2)`, keeping everything on a `ValueError`); then, when
SI references are requested for a non-SI build, first `shutil.copy`
the raw source over the temp file when no frontmatter file was given,
and prepend the nocite header when the extracted citations are
non-empty. -/
def build_document_merged (fuel : Nat) (fs : FS) (base source_content : List Char)
    (frontmatter : Option (List Char)) (include_si_refs is_si : Bool)
    (si_content : List Char) : List Char :=
  let resolved := (resolve_transclusions fuel fs base source_content).1
  let temp0 := match frontmatter with
    | some fm => fm ++ '\n' :: stripFM resolved
    | none => resolved
  let temp1 := if include_si_refs && !is_si then
      (match frontmatter with
       | none => source_content
       | some _ => temp0)
    else temp0
  if include_si_refs && !is_si then
    (let cites := extract_si_citations si_content
     if cites.isEmpty then temp1 else nociteHeader cites ++ temp1)
  else temp1

/-- Filesystem view for the C3 scenario: the transclusion target
exists. -/
def c3fs : FS := [("d/chapter.md".toList, "Chapter text".toList)]

/-- The C3 source text: one inclusion directive with existing target. -/
def c3src : List Char := "Intro ![[chapter]] end".toList

/-- C3: the claim fails on the code.  In a single-document build with
bibliography-hint (SI reference) inclusion requested and no
frontmatter file, `shutil.copy(source_file, temp_merged)` overwrites
the already-written resolved content with the raw source, so the body
handed to the conversion collaborator is the nocite header plus the
unresolved source: the inclusion directive survives although its
target exists, while the resolver on the same source would have
substituted it; without SI inclusion the handed body is resolved. -/
theorem c3_si_refs_skip_resolution :
    build_document_merged 40 c3fs "d".toList c3src none true false "@doe2020".toList =
        nociteHeader "@doe2020".toList ++ c3src ∧
    hasDirective (build_document_merged 40 c3fs "d".toList c3src none true false
        "@doe2020".toList) = true ∧
    (resolve_transclusions 40 c3fs "d".toList c3src).1 =
        "Intro Chapter text end".toList ∧
    build_document_merged 40 c3fs "d".toList c3src none false false "@doe2020".toList =
        "Intro Chapter text end".toList := by
  refine ⟨?_, ?_, ?_, ?_⟩ <;> decide

/-! The destination-directory handling of `build_digital_garden`:
`shutil.rmtree` when the garden directory exists, then
`mkdir(parents=True, exist_ok=True)`, then the per-member and index
writes. -/

/-- Filesystem operations on the garden output directory. -/
inductive DirOp where
  | rmtreeIfExists : DirOp
  | mkdirp : DirOp
  | writeFile : List Char → DirOp

/-- Directory state: `none` when absent, else the list of file names
it contains. -/
def DirState : Type := Option (List (List Char))

/-- Effect of one operation on the directory. -/
def applyOp : DirState → DirOp → DirState
  | _, DirOp.rmtreeIfExists => none
  | st, DirOp.mkdirp =>
    match st with
    | none => some []
    | some fs => some fs
  | st, DirOp.writeFile n =>
    match st with
    | none => none
    | some fs => some (if n ∈ fs then fs else fs ++ [n])

/-- The operation sequence of a garden build that writes `writes`:
recreate the directory, then write every output. -/
def gardenDirOps (writes : List (List Char)) : List DirOp :=
  DirOp.rmtreeIfExists :: DirOp.mkdirp :: writes.map DirOp.writeFile

/-- Run a sequence of operations. -/
def runOps (init : DirState) (ops : List DirOp) : DirState :=
  ops.foldl applyOp init

/-- The name set produced by a list of writes into an empty directory. -/
def writtenSet (writes : List (List Char)) : List (List Char) :=
  writes.foldl (fun fs n => if n ∈ fs then fs else fs ++ [n]) []

lemma runOps_writes : ∀ (writes : List (List Char)) (fs : List (List Char)),
    (writes.map DirOp.writeFile).foldl applyOp (some fs) =
      some (writes.foldl (fun fs n => if n ∈ fs then fs else fs ++ [n]) fs) := by
  intro writes
  induction writes with
  | nil => intro fs; rfl
  | cons w rest ih =>
    intro fs
    simp only [List.map_cons, List.foldl_cons]
    rw [show applyOp (some fs) (DirOp.writeFile w) =
      some (if w ∈ fs then fs else fs ++ [w]) from rfl]
    exact ih _

lemma foldl_insert_mem : ∀ (writes : List (List Char)) (acc : List (List Char))
    (f : List Char),
    f ∈ writes.foldl (fun fs n => if n ∈ fs then fs else fs ++ [n]) acc →
    f ∈ acc ∨ f ∈ writes := by
  intro writes
  induction writes with
  | nil => intro acc f h; exact Or.inl h
  | cons w rest ih =>
    intro acc f h
    rw [List.foldl_cons] at h
    rcases ih _ f h with h2 | h2
    · by_cases hw : w ∈ acc
      · rw [if_pos hw] at h2; exact Or.inl h2
      · rw [if_neg hw] at h2
        rcases List.mem_append.mp h2 with h3 | h3
        · exact Or.inl h3
        · simp at h3; subst h3; exact Or.inr (by simp)
    · exact Or.inr (by simp [h2])

/-- C9: for any prior contents of the garden output directory and any
list of outputs written by this build, running the build's directory
operations yields exactly the directory containing this build's
writes — independent of the initial state — and every file present
afterwards is one of this build's writes: no stale file survives. -/
theorem c9_output_dir_recreated :
    (∀ (init : DirState) (writes : List (List Char)),
      runOps init (gardenDirOps writes) = some (writtenSet writes)) ∧
    (∀ (writes : List (List Char)) (f : List Char),
      f ∈ writtenSet writes → f ∈ writes) := by
  constructor
  · intro init writes
    rw [runOps, gardenDirOps, List.foldl_cons, List.foldl_cons,
      show applyOp (applyOp init DirOp.rmtreeIfExists) DirOp.mkdirp = some [] from rfl,
      runOps_writes]
    rfl
  · intro writes f h
    rcases foldl_insert_mem writes [] f h with h2 | h2
    · simp at h2
    · exact h2

/-- Witness for C9: with a stale file present initially, the build
that writes `a.md` leaves exactly `a.md`, which is among the writes. -/
theorem c9_output_dir_recreated_witness :
    runOps (some ["stale.md".toList]) (gardenDirOps ["a.md".toList]) =
        some (writtenSet ["a.md".toList]) ∧
    "a.md".toList ∈ ["a.md".toList] :=
  ⟨c9_output_dir_recreated.1 (some ["stale.md".toList]) ["a.md".toList],
    c9_output_dir_recreated.2 ["a.md".toList] "a.md".toList (by decide)⟩

end MdManuscript